import Mathlib

/-!
Verification of the devflow version-derivation core.

This file shallowly embeds the pure core of the devflow repository
(src/devflow/__init__.py, utils.py, versioning.py, flow.py):

* branch-name normalization and branch-type classification,
* the branch-type descriptor table BRANCH_TYPES with its allowed-version
  regular expressions (embedded as explicit, equivalent matchers),
* the Python-version deriver python_version,
* the Debian version mapper debian_version_from_python_version and its
  tag-scan helper get_revision,
* the flow helpers get_release_version, get_develop_version_from_release,
  get_hotfix_version.

Strings are Lean Strings; where induction is needed the functions work on
the underlying List Char. Machine-independent Nat stands for Python ints
(all values involved are non-negative counts). Fallible code returns
Except. Fuel-based recursion is used (with fuel derived from input
length) so that every definition reduces inside the kernel; the fuel is
always sufficient, as proved where a claim depends on it.
-/

/-- Numeric value of a decimal digit character ('0'..'9'). -/
def charVal (c : Char) : Nat := c.toNat - 48

/-- The decimal digit character for n < 10 (models Python's str/%d digits). -/
def digitChar (n : Nat) : Char := Char.ofNat (48 + n)

/-- Value of a decimal digit string (models int() on an all-digit string). -/
def parseNat (l : List Char) : Nat := l.foldl (fun a c => 10 * a + charVal c) 0

/-- Fuel-driven decimal printing of a natural number, most significant digit
first.  Models CPython's formatting of a non-negative int by "%d" / str(). -/
def natCharsAux : Nat → Nat → List Char
  | 0, _ => []
  | fuel + 1, n =>
    if n < 10 then [digitChar n]
    else natCharsAux fuel (n / 10) ++ [digitChar (n % 10)]

/-- Decimal digit list of a natural number. -/
def natChars (n : Nat) : List Char := natCharsAux (n + 1) n

/-- Decimal string of a natural number (models "%d" % n for n >= 0). -/
def natRepr (n : Nat) : String := ⟨natChars n⟩

/-- Split a character list at every occurrence of a separator character.
Models Python's str.split(sep) for a one-character separator: the result
always has at least one (possibly empty) field. -/
def splitOnChar (sep : Char) : List Char → List (List Char)
  | [] => [[]]
  | a :: rest =>
    match splitOnChar sep rest with
    | [] => [[]]
    | h :: t => if a == sep then [] :: h :: t else (a :: h) :: t

/-- Python's str.rstrip(chars): remove from the right every trailing
character that belongs to the given character set. -/
def rstripSet (s : String) (cs : List Char) : String :=
  ⟨(s.data.reverse.dropWhile (fun c => cs.contains c)).reverse⟩

/-- Fuel-driven replacement of every non-overlapping occurrence of pat
(scanning left to right, replacements not rescanned), as Python's
str.replace.  Fuel equal to the input length is always sufficient since
every step consumes at least one input character. -/
def replaceAllAux (pat rep : List Char) : Nat → List Char → List Char
  | _, [] => []
  | 0, l => l
  | fuel + 1, c :: cs =>
    if pat.isPrefixOf (c :: cs) then
      rep ++ replaceAllAux pat rep fuel (cs.drop (pat.length - 1))
    else
      c :: replaceAllAux pat rep fuel cs

/-- Python's s.replace(pat, rep) on character lists. -/
def replaceAll (pat rep l : List Char) : List Char :=
  replaceAllAux pat rep l.length l

/-!
Embedding of the regular expressions of src/devflow/__init__.py:

  VERSION_RE = [0-9]+\.[0-9]+(\.[0-9]+)*
  RC_RE      = rc[1-9][0-9]*

An anchored VERSION_RE match is exactly: the string splits on '.' into at
least two fields, each field non-empty and all digits.  The matchers
below are straightforward deterministic equivalents of the (anchored)
regexes: since a version body consists of digits and dots only while an
rc-suffix starts with the letter 'r', the decomposition of a matching
string into body and suffix is unique, so greedy scanning is exact.
-/

/-- Anchored match of VERSION_RE. -/
def isVersionCore (l : List Char) : Bool :=
  let parts := splitOnChar '.' l
  decide (2 ≤ parts.length) && parts.all (fun p => !p.isEmpty && p.all Char.isDigit)

/-- Fuel-driven anchored match of (rc[1-9][0-9]*)+ : one or more groups,
each the letters "rc" followed by a non-zero digit and further digits. -/
def rcSeqAux : Nat → List Char → Bool
  | 0, _ => false
  | fuel + 1, 'r' :: 'c' :: d :: rest =>
    (d.isDigit && d != '0') &&
      (let rem := rest.dropWhile Char.isDigit
       rem.isEmpty || rcSeqAux fuel rem)
  | _ + 1, _ => false

/-- Anchored match of (rc[1-9][0-9]*)+. -/
def rcSeq (l : List Char) : Bool := rcSeqAux l.length l

/-- Unanchored prefix match of VERSION_RE, as used by re.match(VERSION_RE, s)
inside python_version: some prefix of the string is digits, a dot, digits. -/
def versionPrefixMatch (l : List Char) : Bool :=
  let d1 := l.takeWhile Char.isDigit
  match l.dropWhile Char.isDigit with
  | '.' :: r2 => !d1.isEmpty && !(r2.takeWhile Char.isDigit).isEmpty
  | _ => false

/-- Anchored match of ^(next|\.?dev)? applied after VERSION_RE, i.e. the
feature/develop branch pattern ^VERSION_RE(next|\.?dev)?$. -/
def matchFeatureDevelop (l : List Char) : Bool :=
  isVersionCore l ||
  ("next".data.isSuffixOf l && isVersionCore (l.take (l.length - 4))) ||
  (".dev".data.isSuffixOf l && isVersionCore (l.take (l.length - 4))) ||
  ("dev".data.isSuffixOf l && isVersionCore (l.take (l.length - 3)))

/-- Anchored match of the release pattern ^(?P<bverstr>VERSION_RE)(RC_RE)+$,
returning the text of the named capture group bverstr on success.  In any
match the capture is the maximal digit-and-dot prefix, since the rc part
begins with the letter 'r'. -/
def matchRelease (l : List Char) : Option (List Char) :=
  let p := l.takeWhile (fun c => c.isDigit || c == '.')
  let rest := l.dropWhile (fun c => c.isDigit || c == '.')
  if isVersionCore p && !rest.isEmpty && rcSeq rest then some p else none

/-- Core of the hotfix capture ^VERSION_RE\.[1-9][0-9]* : at least three
dot-separated all-digit fields, the last one starting with a non-zero
digit. -/
def hotfixCore (p : List Char) : Bool :=
  let parts := splitOnChar '.' p
  decide (3 ≤ parts.length) && parts.all (fun q => !q.isEmpty && q.all Char.isDigit) &&
    (match parts.getLast? with
     | some (d :: _) => d.isDigit && d != '0'
     | _ => false)

/-- Anchored match of the hotfix pattern
^(?P<bverstr>^VERSION_RE\.[1-9][0-9]*)(RC_RE)*$ with its capture. -/
def matchHotfix (l : List Char) : Option (List Char) :=
  let p := l.takeWhile (fun c => c.isDigit || c == '.')
  let rest := l.dropWhile (fun c => c.isDigit || c == '.')
  if hotfixCore p && (rest.isEmpty || rcSeq rest) then some p else none

/-- Branch type record of devflow/__init__.py.  The allowed_version_re
field is the embedded matcher of the branch type's regex: none means no
match, some cap means a match whose groupdict value for bverstr is cap
(none when the pattern has no such group). -/
structure branch_type where
  builds_snapshot : Bool
  builds_release : Bool
  versioned : Bool
  allowed_version_re : String → Option (Option String)
  debian_branch : String

/-- Matcher of the feature/develop pattern ^VERSION_RE(next|\.?dev)?$. -/
def featureAllowed (b : String) : Option (Option String) :=
  if matchFeatureDevelop b.data then some none else none

/-- Matcher of the master pattern ^VERSION_RE$. -/
def masterAllowed (b : String) : Option (Option String) :=
  if isVersionCore b.data then some none else none

/-- Matcher of the release pattern with its bverstr capture. -/
def releaseAllowed (b : String) : Option (Option String) :=
  (matchRelease b.data).map (fun p => some (⟨p⟩ : String))

/-- Matcher of the hotfix pattern with its bverstr capture. -/
def hotfixAllowed (b : String) : Option (Option String) :=
  (matchHotfix b.data).map (fun p => some (⟨p⟩ : String))

/-- BRANCH_TYPES["feature"]. -/
def feature_branch_type : branch_type :=
  ⟨true, false, false, featureAllowed, "debian-develop"⟩

/-- BRANCH_TYPES["develop"]. -/
def develop_branch_type : branch_type :=
  ⟨true, false, false, featureAllowed, "debian-develop"⟩

/-- BRANCH_TYPES["release"]. -/
def release_branch_type : branch_type :=
  ⟨true, true, true, releaseAllowed, "debian-develop"⟩

/-- BRANCH_TYPES["master"]. -/
def master_branch_type : branch_type :=
  ⟨true, true, false, masterAllowed, "debian"⟩

/-- BRANCH_TYPES["hotfix"]. -/
def hotfix_branch_type : branch_type :=
  ⟨true, true, true, hotfixAllowed, "debian"⟩

/-- The BRANCH_TYPES dictionary of devflow/__init__.py as a lookup. -/
def BRANCH_TYPES (s : String) : Option branch_type :=
  if s = "feature" then some feature_branch_type
  else if s = "develop" then some develop_branch_type
  else if s = "release" then some release_branch_type
  else if s = "master" then some master_branch_type
  else if s = "hotfix" then some hotfix_branch_type
  else none

/-- utils.normalize_branch_name.  The distribution codename, obtained in
the source from a collaborator lookup (get_distribution_codename), is an
explicit parameter.  replace(p, "", 1) under a startswith(p) guard is
removal of the prefix p. -/
def normalize_branch_name (codename branch_name : String) : String :=
  let brnorm := branch_name
  if brnorm == "debian" then "master"
  else if brnorm == codename then "master"
  else if brnorm == "debian-" ++ codename then "master"
  else if ("debian-" ++ codename ++ "-").data.isPrefixOf brnorm.data then
    ⟨brnorm.data.drop ("debian-" ++ codename ++ "-").data.length⟩
  else if "debian-".data.isPrefixOf brnorm.data then
    ⟨brnorm.data.drop "debian-".data.length⟩
  else brnorm

/-- utils.get_branch_type: normalize, then take the part before the first
'-' (split("-")[0], which is the whole string when no '-' occurs). -/
def get_branch_type (codename branch_name : String) : String :=
  let n := normalize_branch_name codename branch_name
  if n.data.contains '-' then ⟨n.data.takeWhile (fun c => c != '-')⟩ else n

/-- utils.version_to_tag: version.replace("~", ""), i.e. removal of every
tilde character. -/
def version_to_tag (version : String) : String :=
  ⟨version.data.filter (fun c => c != '~')⟩

/-- The vcs_info snapshot consumed by the deriver: branch name, short
revision id, and the (non-negative) revision count. -/
structure vcs_info where
  branch : String
  revid : String
  revno : Nat

/-- The distinct ValueError raises of python_version, one constructor per
raise site. -/
inductive VersionError where
  | unknownBranchType
  | missingVersion
  | malformedVersion
  | baseVersionMismatch
  | invalidMode
  | invalidModeForBranch
deriving DecidableEq, Repr

instance {ε α : Type} [DecidableEq ε] [DecidableEq α] : DecidableEq (Except ε α) :=
  fun a b =>
    match a, b with
    | .error e, .error f =>
      match decEq e f with
      | isTrue h => isTrue (by rw [h])
      | isFalse h => isFalse (fun hh => h (Except.error.inj hh))
    | .ok x, .ok y =>
      match decEq x y with
      | isTrue h => isTrue (by rw [h])
      | isFalse h => isFalse (fun hh => h (Except.ok.inj hh))
    | .error _, .ok _ => isFalse (fun hh => Except.noConfusion hh)
    | .ok _, .error _ => isFalse (fun hh => Except.noConfusion hh)

/-- The versioned-branch check of python_version: bverstr = brnorm.split("-")[1]
(IndexError when absent), then the well-formedness check
re.match(VERSION_RE, bverstr). -/
def checkBverstr (brnorm : String) : Except VersionError String :=
  match (splitOnChar '-' brnorm.data).get? 1 with
  | none => .error .missingVersion
  | some bv =>
    if versionPrefixMatch bv then .ok ⟨bv⟩ else .error .malformedVersion

/-- versioning.python_version.  The distribution codename used by branch
normalization is an explicit parameter; base_version, vcs info and the
mode string are as in the source.  The revision number is rendered with
natRepr, matching "%s_%d_%s" % (base_version, revno, revid). -/
def python_version (codename base_version : String) (vcs : vcs_info)
    (mode : String) : Except VersionError String :=
  let brnorm := normalize_branch_name codename vcs.branch
  let btypestr := get_branch_type codename vcs.branch
  match BRANCH_TYPES btypestr with
  | none => .error .unknownBranchType
  | some btype =>
    match (if btype.versioned then (checkBverstr brnorm).map some
           else .ok none : Except VersionError (Option String)) with
    | .error e => .error e
    | .ok bverstr? =>
      match btype.allowed_version_re base_version with
      | none => .error .baseVersionMismatch
      | some cap =>
        if btype.versioned && (cap != bverstr?) then .error .baseVersionMismatch
        else if mode != "snapshot" && mode != "release" then .error .invalidMode
        else
          let snap := mode == "snapshot"
          if (snap && !btype.builds_snapshot) || (!snap && !btype.builds_release) then
            .error .invalidModeForBranch
          else if snap then
            .ok (base_version ++ "_" ++ natRepr vcs.revno ++ "_" ++ vcs.revid)
          else
            .ok base_version

/-- The textual transform of versioning.debian_version_from_python_version:
pyver.replace("_", "~").replace("rc", "~rc"). -/
def debTransform (pyver : String) : String :=
  ⟨replaceAll "rc".data "~rc".data (replaceAll "_".data "~".data pyver.data)⟩

/-- The candidate debian tag probed by versioning.get_revision:
"debian/" + version_to_tag(version) + "-" + str(minor) + codename. -/
def debTagFor (version codename : String) (minor : Nat) : String :=
  "debian/" ++ version_to_tag version ++ "-" ++ natRepr minor ++ codename

/-- The probe loop of versioning.get_revision, fuel-driven.  The set of
existing repository tags (repo.tags in the source) is the list tags. -/
def get_revision_go (version codename : String) (tags : List String) :
    Nat → Nat → Nat
  | 0, minor => minor
  | fuel + 1, minor =>
    if debTagFor version codename minor ∈ tags then
      get_revision_go version codename tags fuel (minor + 1)
    else minor

/-- versioning.get_revision: smallest minor >= 1 whose candidate tag is
not among the repository tags.  Fuel tags.length + 1 always suffices:
among tags.length + 1 distinct candidate tags at least one is free. -/
def get_revision (version codename : String) (tags : List String) : Nat :=
  get_revision_go version codename tags (tags.length + 1) 1

/-- versioning.debian_version_from_python_version, with the collaborator
inputs (distribution codename, repository tag set) explicit. -/
def debian_version_from_python_version (codename : String)
    (tags : List String) (pyver : String) : String :=
  let version := debTransform pyver
  let minor := natRepr (get_revision version codename tags)
  version ++ "-" ++ minor ++ "~" ++ codename

/-- The exceptions of the flow.py helper derivations: IndexError from a
parts[i] access, ValueError from int() on a non-numeric string. -/
inductive FlowError where
  | indexError
  | valueError
deriving DecidableEq, Repr

/-- Python list indexing: l[i], raising IndexError when out of range. -/
def listIndex (l : List (List Char)) (i : Nat) : Except FlowError (List Char) :=
  match l.get? i with
  | some x => .ok x
  | none => .error .indexError

/-- The whitespace characters Python's int() strips from both ends of its
argument (C isspace: space, tab, newline, vertical tab, form feed,
carriage return). -/
def isPySpace (c : Char) : Bool :=
  c == ' ' || c == '\t' || c == '\n' || c == '\x0B' || c == '\x0C' || c == '\r'

/-- The whitespace stripping int() applies before parsing. -/
def pyIntStrip (l : List Char) : List Char :=
  ((l.dropWhile isPySpace).reverse.dropWhile isPySpace).reverse

/-- Splitting off int()'s optional leading sign: returns whether the value
is negated and the remaining characters. -/
def pyIntSignSplit (core : List Char) : Bool × List Char :=
  match core with
  | [] => (false, [])
  | c :: ds =>
    if c == '+' then (false, ds)
    else if c == '-' then (true, ds)
    else (false, c :: ds)

/-- The digit body of int()'s argument, after whitespace and sign. -/
def pyIntBody (l : List Char) : List Char := (pyIntSignSplit (pyIntStrip l)).2

/-- Whether int()'s argument carries a minus sign. -/
def pyIntNeg (l : List Char) : Bool := (pyIntSignSplit (pyIntStrip l)).1

/-- Condition under which int() succeeds: after stripping whitespace and an
optional sign, a non-empty all-digit string remains. -/
def pyIntCond (l : List Char) : Bool :=
  !(pyIntBody l).isEmpty && (pyIntBody l).all Char.isDigit

/-- Python int() on a version field: optional surrounding whitespace, an
optional sign, then decimal digits; ValueError otherwise. -/
def pyIntOfChars (l : List Char) : Except FlowError Int :=
  if pyIntCond l then
    .ok (if pyIntNeg l then -(parseNat (pyIntBody l) : Int) else (parseNat (pyIntBody l) : Int))
  else .error .valueError

/-- Python's "%d" formatting of a (possibly negative) int. -/
def intRepr (i : Int) : String :=
  if i < 0 then "-" ++ natRepr i.natAbs else natRepr i.toNat

/-- Substring containment, as Python's "pat in s". -/
def containsSub (pat : List Char) : List Char → Bool
  | [] => pat.isEmpty
  | c :: cs => pat.isPrefixOf (c :: cs) || containsSub pat cs

/-- flow.get_release_version. -/
def get_release_version (develop_version : String) : Except FlowError String :=
  if containsSub "next".data develop_version.data then
    let version := rstripSet develop_version ['n', 'e', 'x', 't']
    let parts := splitOnChar '.' version.data
    match listIndex parts 0 with
    | .error e => .error e
    | .ok p0 =>
      match pyIntOfChars p0 with
      | .error e => .error e
      | .ok major =>
        match listIndex parts 1 with
        | .error e => .error e
        | .ok p1 =>
          match pyIntOfChars p1 with
          | .error e => .error e
          | .ok minor => .ok (intRepr major ++ "." ++ intRepr (minor + 1))
  else
    .ok (rstripSet (rstripSet develop_version ['.', 'd', 'e', 'v']) ['d', 'e', 'v'])

/-- flow.get_develop_version_from_release. -/
def get_develop_version_from_release (release_version : String) :
    Except FlowError String :=
  let parts := splitOnChar '.' release_version.data
  match listIndex parts 0 with
  | .error e => .error e
  | .ok p0 =>
    match pyIntOfChars p0 with
    | .error e => .error e
    | .ok major =>
      match listIndex parts 1 with
      | .error e => .error e
      | .ok p1 =>
        match pyIntOfChars p1 with
        | .error e => .error e
        | .ok minor => .ok (intRepr major ++ "." ++ intRepr (minor + 1) ++ "dev")

/-- flow.get_hotfix_version. -/
def get_hotfix_version (version : String) : Except FlowError String :=
  let parts := splitOnChar '.' version.data
  match listIndex parts 0 with
  | .error e => .error e
  | .ok p0 =>
    match pyIntOfChars p0 with
    | .error e => .error e
    | .ok major =>
      match listIndex parts 1 with
      | .error e => .error e
      | .ok p1 =>
        match pyIntOfChars p1 with
        | .error e => .error e
        | .ok minor =>
          match (if 2 < parts.length then
                   match parts.get? 2 with
                   | some p2 => pyIntOfChars p2
                   | none => .error .indexError
                 else .ok 0 : Except FlowError Int) with
          | .error e => .error e
          | .ok hotfix =>
            .ok (intRepr major ++ "." ++ intRepr minor ++ "." ++ intRepr (hotfix + 1))

/-!
Spec-side definitions.  The repository itself contains no comparator for
either version family: Python-side ordering is delegated to setuptools
and Debian-side ordering to dpkg.  The definitions below model those two
total orders, the first from the specification's description of the
Version entity, the second from the Debian policy version-comparison
algorithm that the specification (and the source's docstring) designate
as the Debian ordering.  The branch-name pattern of the classification
totality property is modelled from the specification's regex.
-/

/-- Modelled from the spec: the ordering suffix of a derived version,
with strict priority rc(N) < plain < next. -/
inductive PySuffix where
  | rc (n : Nat)
  | plain
  | next
deriving DecidableEq, Repr

/-- Modelled from the spec: a derived Python version, as base numeric
tuple, ordering suffix, and optional snapshot suffix (revno, revid). -/
structure PyVersion where
  nums : List Nat
  suffix : PySuffix
  snap : Option (Nat × String)
deriving DecidableEq, Repr

/-- Rank realising the suffix priority rc(N) < plain < next. -/
def PySuffix.rank : PySuffix → Nat
  | .rc _ => 0
  | .plain => 1
  | .next => 2

/-- Strict order on numeric tuples: lexicographic, a proper leading tuple
sorting first (0.14 < 0.14.1). -/
def numsLt : List Nat → List Nat → Bool
  | [], [] => false
  | [], _ :: _ => true
  | _ :: _, [] => false
  | a :: as, b :: bs => decide (a < b) || (a == b && numsLt as bs)

/-- Order on suffixes: by rank, rc suffixes among themselves by N. -/
def suffixLt : PySuffix → PySuffix → Bool
  | .rc a, .rc b => decide (a < b)
  | s, t => decide (s.rank < t.rank)

/-- Order on snapshot decorations: a snapshot sorts before the suffix-less
version; snapshots of the same version sort by revision number, then id. -/
def snapLt : Option (Nat × String) → Option (Nat × String) → Bool
  | some _, none => true
  | none, _ => false
  | some (n1, r1), some (n2, r2) => decide (n1 < n2) || (n1 == n2 && decide (r1 < r2))

/-- Modelled from the spec: the Python-version total order of the Version
entity, comparing base numeric tuple, then suffix priority, then the
snapshot decoration. -/
def pyLt (a b : PyVersion) : Bool :=
  numsLt a.nums b.nums ||
    (a.nums == b.nums &&
      (suffixLt a.suffix b.suffix ||
        (a.suffix == b.suffix && snapLt a.snap b.snap)))

/-- Dot-joined rendering of the numeric tuple. -/
def joinDots : List Nat → String
  | [] => ""
  | [n] => natRepr n
  | n :: rest => natRepr n ++ "." ++ joinDots rest

/-- Rendering of a suffix. -/
def PySuffix.render : PySuffix → String
  | .rc n => "rc" ++ natRepr n
  | .plain => ""
  | .next => "next"

/-- The version string denoted by a PyVersion, in the deriver's format
base, base ++ suffix, or base ++ suffix ++ "_" ++ revno ++ "_" ++ revid. -/
def pyRender (v : PyVersion) : String :=
  joinDots v.nums ++ v.suffix.render ++
    (match v.snap with
     | none => ""
     | some (n, r) => "_" ++ natRepr n ++ "_" ++ r)

/-- Modelled from the spec: the character weight of the Debian policy
comparison's lexical step.  Tilde sorts before everything (weight 0, the
end of a part having weight 1), letters sort before all other
characters. -/
def debCharKey (c : Char) : Nat :=
  if c == '~' then 0
  else if c.isAlpha then c.toNat + 2
  else c.toNat + 300

/-- Modelled from the spec: lexical comparison of the non-digit parts in
the Debian policy ordering, with the end of a part sorting before every
character except the tilde. -/
def debLex : List Char → List Char → Ordering
  | [], [] => .eq
  | [], c :: _ => if debCharKey c < 1 then .gt else .lt
  | c :: _, [] => if debCharKey c < 1 then .lt else .gt
  | a :: as, b :: bs =>
    if debCharKey a < debCharKey b then .lt
    else if debCharKey b < debCharKey a then .gt
    else debLex as bs

/-- Modelled from the spec: the Debian policy version comparison, fuel
driven.  Alternately compare the maximal non-digit parts lexically and
the maximal digit parts numerically (an absent digit part counting as
zero), until both strings are exhausted. -/
def debCmpAux : Nat → List Char → List Char → Ordering
  | 0, _, _ => .eq
  | fuel + 1, a, b =>
    let an := a.takeWhile (fun c => !c.isDigit)
    let bn := b.takeWhile (fun c => !c.isDigit)
    match debLex an bn with
    | .lt => .lt
    | .gt => .gt
    | .eq =>
      let a2 := a.drop an.length
      let b2 := b.drop bn.length
      let ad := a2.takeWhile Char.isDigit
      let bd := b2.takeWhile Char.isDigit
      if a2.isEmpty && b2.isEmpty then .eq
      else if parseNat ad < parseNat bd then .lt
      else if parseNat bd < parseNat ad then .gt
      else debCmpAux fuel (a2.drop ad.length) (b2.drop bd.length)

/-- Modelled from the spec: comparison of two Debian version strings.
Fuel a.length + b.length + 1 always suffices: every round that recurses
consumes at least one character. -/
def debCmp (a b : List Char) : Ordering :=
  debCmpAux (a.length + b.length + 1) a b

/-- The disjunct for one branch-type name of the classification pattern:
the name itself, or the name followed by a dash and anything. -/
def dashMatch (t s : String) : Bool :=
  s == t || (t.data ++ ['-']).isPrefixOf s.data

/-- Modelled from the spec: the branch-name pattern
(feature|develop|release|master|hotfix)(-.*)? of the classification
totality property, anchored. -/
def branchPattern (s : String) : Bool :=
  dashMatch "feature" s || dashMatch "develop" s || dashMatch "release" s ||
    dashMatch "master" s || dashMatch "hotfix" s

/-- The input domain of the flow helper derivations: at least two
dot-separated components, the first two numeric in int()'s sense
(optional surrounding whitespace and sign around decimal digits). -/
def hasTwoNumericParts (s : String) : Bool :=
  match splitOnChar '.' s.data with
  | a :: b :: _ => pyIntCond a && pyIntCond b
  | _ => false

/-! Basic lemmas about the string and number helpers. -/

theorem strData_append (s t : String) : (s ++ t).data = s.data ++ t.data := by
  cases s
  cases t
  rfl

theorem strMk_eq_iff (a b : List Char) : (⟨a⟩ : String) = ⟨b⟩ ↔ a = b := by
  constructor
  · intro h
    exact congrArg String.data h
  · intro h
    rw [h]

theorem strEq_iff_data (s t : String) : s = t ↔ s.data = t.data := by
  cases s
  cases t
  exact strMk_eq_iff _ _

theorem splitOnChar_ne_nil (sep : Char) (l : List Char) :
    splitOnChar sep l ≠ [] := by
  cases l with
  | nil => simp [splitOnChar]
  | cons a rest =>
    unfold splitOnChar
    cases h : splitOnChar sep rest with
    | nil => simp
    | cons x xs =>
      by_cases hc : a == sep <;> simp [hc]

theorem splitOnChar_no_sep (sep : Char) (l : List Char)
    (h : ∀ c ∈ l, c ≠ sep) : splitOnChar sep l = [l] := by
  induction l with
  | nil => rfl
  | cons a rest ih =>
    have ha : a ≠ sep := h a (List.mem_cons_self a rest)
    have hrest : ∀ c ∈ rest, c ≠ sep := fun c hc => h c (List.mem_cons_of_mem a hc)
    unfold splitOnChar
    rw [ih hrest]
    simp [ha]

theorem splitOnChar_append (sep : Char) (xs ys : List Char)
    (h : ∀ c ∈ xs, c ≠ sep) :
    splitOnChar sep (xs ++ sep :: ys) = xs :: splitOnChar sep ys := by
  induction xs with
  | nil =>
    simp only [List.nil_append]
    conv_lhs => rw [splitOnChar]
    cases hy : splitOnChar sep ys with
    | nil => exact absurd hy (splitOnChar_ne_nil sep ys)
    | cons h' t' => simp
  | cons a rest ih =>
    have ha : a ≠ sep := h a (List.mem_cons_self a rest)
    have hrest : ∀ c ∈ rest, c ≠ sep := fun c hc => h c (List.mem_cons_of_mem a hc)
    simp only [List.cons_append]
    conv_lhs => rw [splitOnChar, ih hrest]
    simp [ha]

theorem charVal_digitChar (n : Nat) (h : n < 10) : charVal (digitChar n) = n := by
  interval_cases n <;> rfl

theorem digitChar_isDigit (n : Nat) (h : n < 10) : (digitChar n).isDigit = true := by
  interval_cases n <;> rfl

theorem parseNat_append_digit (l : List Char) (c : Char) :
    parseNat (l ++ [c]) = 10 * parseNat l + charVal c := by
  unfold parseNat
  rw [List.foldl_append]
  rfl

theorem natCharsAux_parse (f : Nat) : ∀ m : Nat, m < 10 ^ f →
    parseNat (natCharsAux f m) = m := by
  induction f with
  | zero =>
    intro m hm
    interval_cases m
    rfl
  | succ f ih =>
    intro m hm
    unfold natCharsAux
    by_cases h10 : m < 10
    · simp only [h10, if_true]
      have : parseNat [digitChar m] = charVal (digitChar m) := by
        unfold parseNat
        simp
      rw [this, charVal_digitChar m h10]
    · simp only [h10, if_false]
      rw [parseNat_append_digit, charVal_digitChar (m % 10) (Nat.mod_lt _ (by norm_num))]
      have hdiv : m / 10 < 10 ^ f := by
        apply Nat.div_lt_of_lt_mul
        rw [← pow_succ']
        exact hm
      rw [ih (m / 10) hdiv]
      omega

theorem natCharsAux_all_digit (f : Nat) : ∀ m : Nat,
    ∀ c ∈ natCharsAux f m, c.isDigit = true := by
  induction f with
  | zero =>
    intro m c hc
    simp [natCharsAux] at hc
  | succ f ih =>
    intro m c hc
    unfold natCharsAux at hc
    by_cases h10 : m < 10
    · simp only [h10, if_true, List.mem_singleton] at hc
      rw [hc]
      exact digitChar_isDigit m h10
    · simp only [h10, if_false, List.mem_append, List.mem_singleton] at hc
      rcases hc with hc | hc
      · exact ih (m / 10) c hc
      · rw [hc]
        exact digitChar_isDigit (m % 10) (Nat.mod_lt _ (by norm_num))

theorem natChars_ne_nil (n : Nat) : natChars n ≠ [] := by
  unfold natChars natCharsAux
  by_cases h10 : n < 10 <;> simp [h10]

theorem natChars_all_digit (n : Nat) : ∀ c ∈ natChars n, c.isDigit = true :=
  natCharsAux_all_digit (n + 1) n

theorem parseNat_natChars (n : Nat) : parseNat (natChars n) = n := by
  apply natCharsAux_parse
  calc n < 10 ^ n := Nat.lt_pow_self (by norm_num) n
  _ ≤ 10 ^ (n + 1) := Nat.pow_le_pow_right (by norm_num) (Nat.le_succ n)

theorem natChars_inj {a b : Nat} (h : natChars a = natChars b) : a = b := by
  have := congrArg parseNat h
  rwa [parseNat_natChars, parseNat_natChars] at this

theorem natChars_no_char (n : Nat) (c : Char) (hc : c.isDigit = false) :
    ∀ d ∈ natChars n, d ≠ c := by
  intro d hd he
  rw [he] at hd
  exact absurd (natChars_all_digit n c hd) (by rw [hc]; simp)

theorem digit_not_space (c : Char) (h : c.isDigit = true) : isPySpace c = false := by
  cases hc : isPySpace c with
  | false => rfl
  | true =>
    exfalso
    simp only [isPySpace, Bool.or_eq_true, beq_iff_eq] at hc
    rcases hc with ((((rfl | rfl) | rfl) | rfl) | rfl) | rfl <;> simp at h

theorem dropWhile_space_digits (l : List Char) (hd : ∀ c ∈ l, c.isDigit = true) :
    l.dropWhile isPySpace = l := by
  cases l with
  | nil => rfl
  | cons a as =>
    rw [List.dropWhile_cons_of_neg]
    rw [digit_not_space a (hd a (List.mem_cons_self a as))]
    simp

theorem pyIntStrip_digits (l : List Char) (hd : ∀ c ∈ l, c.isDigit = true) :
    pyIntStrip l = l := by
  unfold pyIntStrip
  rw [dropWhile_space_digits l hd,
      dropWhile_space_digits l.reverse (fun c hc => hd c (List.mem_reverse.mp hc)),
      List.reverse_reverse]

theorem pyIntSignSplit_digits (l : List Char) (hd : ∀ c ∈ l, c.isDigit = true) :
    pyIntSignSplit l = (false, l) := by
  cases l with
  | nil => rfl
  | cons a as =>
    have ha := hd a (List.mem_cons_self a as)
    have h1 : (a == '+') = false := by
      cases hp : a == '+' with
      | false => rfl
      | true =>
        rw [show a = '+' from beq_iff_eq.mp hp] at ha
        exact absurd ha (by decide)
    have h2 : (a == '-') = false := by
      cases hp : a == '-' with
      | false => rfl
      | true =>
        rw [show a = '-' from beq_iff_eq.mp hp] at ha
        exact absurd ha (by decide)
    unfold pyIntSignSplit
    simp [h1, h2]

theorem pyIntBody_digits (l : List Char) (hd : ∀ c ∈ l, c.isDigit = true) :
    pyIntBody l = l := by
  unfold pyIntBody
  rw [pyIntStrip_digits l hd, pyIntSignSplit_digits l hd]

theorem pyIntNeg_digits (l : List Char) (hd : ∀ c ∈ l, c.isDigit = true) :
    pyIntNeg l = false := by
  unfold pyIntNeg
  rw [pyIntStrip_digits l hd, pyIntSignSplit_digits l hd]

theorem pyIntOfChars_digits (l : List Char) (hne : l ≠ [])
    (hd : ∀ c ∈ l, c.isDigit = true) :
    pyIntOfChars l = .ok ((parseNat l : Nat) : Int) := by
  unfold pyIntOfChars pyIntCond
  have hb := pyIntBody_digits l hd
  have hng := pyIntNeg_digits l hd
  have h1 : l.isEmpty = false := by
    cases l with
    | nil => exact absurd rfl hne
    | cons a as => rfl
  have h2 : l.all Char.isDigit = true := List.all_eq_true.mpr hd
  rw [hb, hng]
  simp [h1, h2]

theorem intRepr_coe_nat (n : Nat) : intRepr (n : Int) = natRepr n := by
  unfold intRepr
  rw [if_neg (by omega), Int.toNat_ofNat]

theorem isPrefixOf_iff (p l : List Char) :
    p.isPrefixOf l = true ↔ ∃ r, l = p ++ r := by
  induction p generalizing l with
  | nil =>
    simp [List.isPrefixOf]
  | cons a as ih =>
    cases l with
    | nil =>
      simp [List.isPrefixOf]
    | cons b bs =>
      simp only [List.isPrefixOf, Bool.and_eq_true, beq_iff_eq, ih, List.cons_append,
        List.cons.injEq]
      constructor
      · rintro ⟨hab, r, hr⟩
        exact ⟨r, hab.symm, hr⟩
      · rintro ⟨r, hab, hr⟩
        exact ⟨hab.symm, r, hr⟩

theorem takeWhile_ne_dash_eq_self (l : List Char) (h : ∀ c ∈ l, c ≠ '-') :
    l.takeWhile (fun c => c != '-') = l := by
  induction l with
  | nil => rfl
  | cons a as ih =>
    have ha : (a != '-') = true := bne_iff_ne.mpr (h a (List.mem_cons_self a as))
    simp [List.takeWhile_cons, ha, ih (fun c hc => h c (List.mem_cons_of_mem a hc))]

theorem takeWhile_ne_dash_append (t r : List Char) (h : ∀ c ∈ t, c ≠ '-') :
    (t ++ '-' :: r).takeWhile (fun c => c != '-') = t := by
  induction t with
  | nil => simp [List.takeWhile_cons]
  | cons a as ih =>
    have ha : (a != '-') = true := bne_iff_ne.mpr (h a (List.mem_cons_self a as))
    simp [List.takeWhile_cons, ha, ih (fun c hc => h c (List.mem_cons_of_mem a hc))]

theorem takeWhile_ne_dash_forward (l : List Char) : ∀ t : List Char,
    l.takeWhile (fun c => c != '-') = t → (l = t ∨ ∃ r, l = t ++ '-' :: r) := by
  induction l with
  | nil =>
    intro t h
    left
    simpa using h.symm
  | cons a as ih =>
    intro t h
    by_cases ha : a = '-'
    · have hpred : ¬((fun c => c != '-') a = true) := by simp [ha]
      rw [@List.takeWhile_cons_of_neg Char (fun c => c != '-') a as hpred] at h
      right
      refine ⟨as, ?_⟩
      rw [← h, ha]
      rfl
    · have hpred : ((fun c => c != '-') a) = true := bne_iff_ne.mpr ha
      rw [@List.takeWhile_cons_of_pos Char (fun c => c != '-') a as hpred] at h
      cases t with
      | nil => exact absurd h (by simp)
      | cons b bs =>
        have hab : a = b := (List.cons.injEq a _ b bs ▸ h).1
        have htw : as.takeWhile (fun c => c != '-') = bs :=
          (List.cons.injEq a _ b bs ▸ h).2
        rcases ih bs htw with h1 | ⟨r, h2⟩
        · left
          rw [hab, h1]
        · right
          refine ⟨r, ?_⟩
          rw [hab, h2]
          rfl

theorem takeWhile_ne_dash_eq_iff (l t : List Char) (ht : ∀ c ∈ t, c ≠ '-') :
    l.takeWhile (fun c => c != '-') = t ↔ (l = t ∨ ∃ r, l = t ++ '-' :: r) := by
  constructor
  · exact takeWhile_ne_dash_forward l t
  · rintro (rfl | ⟨r, rfl⟩)
    · exact takeWhile_ne_dash_eq_self l ht
    · exact takeWhile_ne_dash_append t r ht

theorem contains_iff_mem (l : List Char) (c : Char) :
    l.contains c = true ↔ c ∈ l := by
  induction l with
  | nil => simp [List.contains]
  | cons a as ih =>
    simp only [List.contains] at ih ⊢
    simp only [List.elem_cons]
    by_cases h : c == a
    · simp only [h]
      simp only [beq_iff_eq] at h
      simp [h]
    · simp only [h]
      have hne : c ≠ a := by
        intro he
        rw [he] at h
        simp at h
      simp [ih, hne]

theorem classify_tag_eq_iff (n t : String) (ht : ∀ c ∈ t.data, c ≠ '-') :
    ((if n.data.contains '-' then (⟨n.data.takeWhile (fun c => c != '-')⟩ : String) else n) = t)
      ↔ dashMatch t n = true := by
  unfold dashMatch
  simp only [Bool.or_eq_true, beq_iff_eq, isPrefixOf_iff]
  by_cases hc : n.data.contains '-' = true
  · rw [if_pos hc]
    have hmk : ((⟨n.data.takeWhile (fun c => c != '-')⟩ : String) = t)
        ↔ n.data.takeWhile (fun c => c != '-') = t.data := by
      rw [strEq_iff_data]
    rw [hmk, takeWhile_ne_dash_eq_iff n.data t.data ht]
    constructor
    · rintro (h | ⟨r, hr⟩)
      · left
        exact (strEq_iff_data n t).mpr h
      · right
        refine ⟨r, ?_⟩
        rw [hr, List.append_assoc]
        rfl
    · rintro (h | ⟨r, hr⟩)
      · left
        exact congrArg String.data h
      · right
        refine ⟨r, ?_⟩
        rw [hr, List.append_assoc]
        rfl
  · rw [if_neg hc]
    constructor
    · intro h
      left
      exact h
    · rintro (h | ⟨r, hr⟩)
      · exact h
      · exfalso
        apply hc
        rw [contains_iff_mem, hr]
        simp

theorem BRANCH_TYPES_isSome_iff (s : String) :
    (BRANCH_TYPES s).isSome = true ↔
      (s = "feature" ∨ s = "develop" ∨ s = "release" ∨ s = "master" ∨ s = "hotfix") := by
  unfold BRANCH_TYPES
  split_ifs with h1 h2 h3 h4 h5 <;> simp_all

theorem get_revision_go_spec (version codename : String) (tags : List String) :
    ∀ fuel start : Nat,
    (∃ k, k < fuel ∧ debTagFor version codename (start + k) ∉ tags) →
    start ≤ get_revision_go version codename tags fuel start ∧
    debTagFor version codename (get_revision_go version codename tags fuel start) ∉ tags ∧
    ∀ m, start ≤ m → m < get_revision_go version codename tags fuel start →
      debTagFor version codename m ∈ tags := by
  intro fuel
  induction fuel with
  | zero =>
    rintro start ⟨k, hk, _⟩
    omega
  | succ fuel ih =>
    rintro start ⟨k, hk, hfree⟩
    by_cases hs : debTagFor version codename start ∈ tags
    · have hgo : get_revision_go version codename tags (fuel + 1) start
          = get_revision_go version codename tags fuel (start + 1) := by
        show (if debTagFor version codename start ∈ tags then
            get_revision_go version codename tags fuel (start + 1) else start)
          = get_revision_go version codename tags fuel (start + 1)
        rw [if_pos hs]
      have hk0 : k ≠ 0 := by
        rintro rfl
        exact hfree (by simpa using hs)
      obtain ⟨k', rfl⟩ : ∃ k', k = k' + 1 := ⟨k - 1, by omega⟩
      have hex : ∃ k2, k2 < fuel ∧ debTagFor version codename (start + 1 + k2) ∉ tags := by
        refine ⟨k', by omega, ?_⟩
        have harith : start + 1 + k' = start + (k' + 1) := by omega
        rw [harith]
        exact hfree
      obtain ⟨h1, h2, h3⟩ := ih (start + 1) hex
      rw [hgo]
      refine ⟨by omega, h2, ?_⟩
      intro m hm1 hm2
      by_cases hms : m = start
      · rw [hms]
        exact hs
      · exact h3 m (by omega) hm2
    · have hgo : get_revision_go version codename tags (fuel + 1) start = start := by
        show (if debTagFor version codename start ∈ tags then
            get_revision_go version codename tags fuel (start + 1) else start) = start
        rw [if_neg hs]
      rw [hgo]
      exact ⟨Nat.le_refl _, hs, fun m hm1 hm2 => by omega⟩

theorem debTagFor_inj (version codename : String) {a b : Nat}
    (h : debTagFor version codename a = debTagFor version codename b) : a = b := by
  unfold debTagFor natRepr at h
  have hd := congrArg String.data h
  rw [strData_append, strData_append, strData_append, strData_append,
      strData_append, strData_append] at hd
  have hcancel := List.append_cancel_right hd
  have hcancel2 := List.append_cancel_left hcancel
  exact natChars_inj hcancel2

theorem exists_free_slot (version codename : String) (tags : List String) :
    ∃ k, k < tags.length + 1 ∧ debTagFor version codename (1 + k) ∉ tags := by
  by_contra hall
  push_neg at hall
  have hinj : Function.Injective (fun k : Nat => debTagFor version codename (1 + k)) := by
    intro a b hab
    have := debTagFor_inj version codename hab
    omega
  have hsub : (Finset.range (tags.length + 1)).image
      (fun k => debTagFor version codename (1 + k)) ⊆ tags.toFinset := by
    intro x hx
    simp only [Finset.mem_image, Finset.mem_range] at hx
    obtain ⟨k, hk, rfl⟩ := hx
    rw [List.mem_toFinset]
    exact hall k hk
  have hcard := Finset.card_le_card hsub
  rw [Finset.card_image_of_injective _ hinj, Finset.card_range] at hcard
  have := tags.toFinset_card_le
  omega

/-!
Claim theorems.
-/

/-- C1: for every input on which the deriver succeeds, python_version
returns the base version string verbatim when the mode is "release", and
the string baseVersion ++ "_" ++ revno ++ "_" ++ revid when the mode is
"snapshot". -/
theorem c1_derive_output_shape (codename base_version : String) (vcs : vcs_info)
    (mode v : String)
    (h : python_version codename base_version vcs mode = .ok v) :
    (mode = "release" → v = base_version) ∧
    (mode = "snapshot" →
      v = base_version ++ "_" ++ natRepr vcs.revno ++ "_" ++ vcs.revid) := by
  simp only [python_version] at h
  split at h
  · exact Except.noConfusion h
  · split at h
    · exact Except.noConfusion h
    · split at h
      · exact Except.noConfusion h
      · split at h
        · exact Except.noConfusion h
        · split at h
          · exact Except.noConfusion h
          · rename_i hmodes
            split at h
            · exact Except.noConfusion h
            · split at h
              · rename_i hsnap
                have hv := Except.ok.inj h
                have hm : mode = "snapshot" := by simpa using hsnap
                constructor
                · intro hr
                  rw [hm] at hr
                  exact absurd hr (by decide)
                · intro _
                  exact hv.symm
              · rename_i hsnap
                have hv := Except.ok.inj h
                have hm : mode = "release" := by
                  simp only [bne_iff_ne, Bool.and_eq_true, ne_eq, beq_iff_eq] at hmodes hsnap
                  tauto
                constructor
                · intro _
                  exact hv.symm
                · intro hs
                  rw [hm] at hs
                  exact absurd hs (by decide)

/-- C1 witness: baseVersion "0.14", branch "master", mode release yields
"0.14", by the theorem instantiated at that input. -/
theorem c1_witness :
    (python_version "bionic" "0.14" ⟨"master", "abc1234", 5⟩ "release" = Except.ok "0.14") ∧
      "0.14" = "0.14" :=
  ⟨by decide,
    (c1_derive_output_shape "bionic" "0.14" ⟨"master", "abc1234", 5⟩ "release" "0.14"
      (by decide)).1 rfl⟩

/-- C2: the Debian mapping is not order-preserving.  The deriver produces
"0.14rc3" (release build on release-0.14) and "0.14_1_abc1234" (snapshot
on master), ordered that way by the Python-version total order, yet the
textual transform maps them to "0.14~rc3" and "0.14~1~abc1234", which the
Debian policy ordering puts in the opposite order — contradicting the
source docstring's own example D("0.14rc3") < D("0.14_1"). -/
theorem c2_debian_ordering_failure :
    pyLt ⟨[0, 14], .rc 3, none⟩ ⟨[0, 14], .plain, some (1, "abc1234")⟩ = true ∧
    pyRender ⟨[0, 14], .rc 3, none⟩ = "0.14rc3" ∧
    pyRender ⟨[0, 14], .plain, some (1, "abc1234")⟩ = "0.14_1_abc1234" ∧
    python_version "bionic" "0.14rc3" ⟨"release-0.14", "deadbee", 120⟩ "release"
      = .ok "0.14rc3" ∧
    python_version "bionic" "0.14" ⟨"master", "abc1234", 1⟩ "snapshot"
      = .ok "0.14_1_abc1234" ∧
    debCmp (debTransform "0.14rc3").data (debTransform "0.14_1_abc1234").data
      = Ordering.gt := by
  refine ⟨by decide, by decide, by decide, by decide, by decide, by decide⟩

/-- C3 counterexample: with branch "release-0.14rc2" and base version
"0.14rc2" the cross-check fails (capture "0.14" differs from the branch
version "0.14rc2"), so the deriver errors instead of succeeding. -/
theorem c3_counterexample :
    python_version "bionic" "0.14rc2" ⟨"release-0.14rc2", "abc1234", 249⟩ "snapshot"
      = .error .baseVersionMismatch := by decide

/-- C3 amended: with base version "0.14rc2", branch "release-0.14" (whose
embedded version equals the pattern's named capture), mode snapshot,
revno 249 and revid "abc1234", the deriver returns "0.14rc2_249_abc1234". -/
theorem c3_amended :
    python_version "bionic" "0.14rc2" ⟨"release-0.14", "abc1234", 249⟩ "snapshot"
      = .ok "0.14rc2_249_abc1234" := by decide

/-- C4 counterexample: the raw branch name "debian" does not match the
pattern (feature|develop|release|master|hotfix)(-.*)? yet classifies
without error (normalization maps it to "master"). -/
theorem c4_counterexample :
    (BRANCH_TYPES (get_branch_type "bionic" "debian")).isSome = true ∧
      branchPattern "debian" = false := by decide

/-- C4 amended: classification is total and exhaustive on normalized
names: a branch name classifies to a branch type exactly when its
normalized form matches (feature|develop|release|master|hotfix)(-.*)?. -/
theorem c4_amended (codename branch : String) :
    (BRANCH_TYPES (get_branch_type codename branch)).isSome = true ↔
      branchPattern (normalize_branch_name codename branch) = true := by
  rw [BRANCH_TYPES_isSome_iff]
  have hg : get_branch_type codename branch =
      (if (normalize_branch_name codename branch).data.contains '-' then
        (⟨(normalize_branch_name codename branch).data.takeWhile (fun c => c != '-')⟩ : String)
      else normalize_branch_name codename branch) := rfl
  rw [hg]
  unfold branchPattern
  simp only [Bool.or_eq_true]
  rw [← classify_tag_eq_iff _ "feature" (by decide),
      ← classify_tag_eq_iff _ "develop" (by decide),
      ← classify_tag_eq_iff _ "release" (by decide),
      ← classify_tag_eq_iff _ "master" (by decide),
      ← classify_tag_eq_iff _ "hotfix" (by decide)]
  tauto

/-- C4 witness: "feature-foo" matches the pattern and classifies, by the
amended theorem instantiated there. -/
theorem c4_witness :
    (BRANCH_TYPES (get_branch_type "bionic" "feature-foo")).isSome = true ∧
      branchPattern (normalize_branch_name "bionic" "feature-foo") = true :=
  ⟨(c4_amended "bionic" "feature-foo").mpr (by decide), by decide⟩

/-- C5 counterexample: with codename "bionic", normalization of
"debian-release-1.2-bionic" does not give "release-1.2". -/
theorem c5_counterexample :
    normalize_branch_name "bionic" "debian-release-1.2-bionic" ≠ "release-1.2" := by decide

/-- C5 amended: normalization strips only a leading debian alias or
prefix; "debian-release-1.2-bionic" starts with "debian-" but not with
"debian-bionic-", so only "debian-" is removed and the trailing codename
is kept, while "debian-bionic-release-1.2" does lose both affixes, and
the aliases "debian", "bionic", "debian-bionic" normalize to "master". -/
theorem c5_amended :
    normalize_branch_name "bionic" "debian-release-1.2-bionic" = "release-1.2-bionic" ∧
    normalize_branch_name "bionic" "debian-bionic-release-1.2" = "release-1.2" ∧
    normalize_branch_name "bionic" "debian" = "master" ∧
    normalize_branch_name "bionic" "bionic" = "master" ∧
    normalize_branch_name "bionic" "debian-bionic" = "master" := by decide

/-- C6 counterexample: nextDevelop("0.14") is "0.15dev", not "0.15next". -/
theorem c6_counterexample :
    get_develop_version_from_release "0.14" ≠ Except.ok "0.15next" ∧
    get_develop_version_from_release "0.14" = Except.ok "0.15dev" := by
  refine ⟨by decide, by decide⟩

/-- C6 amended: nextDevelop increments the minor component of a release
version X.Y and appends the literal suffix "dev": the result is
X.(Y+1) followed by "dev", e.g. nextDevelop("0.14") = "0.15dev". -/
theorem c6_amended (X Y : Nat) :
    get_develop_version_from_release (natRepr X ++ "." ++ natRepr Y)
      = .ok (natRepr X ++ "." ++ natRepr (Y + 1) ++ "dev") := by
  have hdata : (natRepr X ++ "." ++ natRepr Y).data = natChars X ++ '.' :: natChars Y := by
    rw [strData_append, strData_append, List.append_assoc]
    rfl
  have hsplit : splitOnChar '.' (natRepr X ++ "." ++ natRepr Y).data
      = [natChars X, natChars Y] := by
    rw [hdata, splitOnChar_append '.' _ _ (natChars_no_char X '.' (by decide)),
        splitOnChar_no_sep '.' _ (natChars_no_char Y '.' (by decide))]
  have e1 : pyIntOfChars (natChars X) = .ok ((X : Int)) := by
    rw [pyIntOfChars_digits _ (natChars_ne_nil X) (natChars_all_digit X), parseNat_natChars]
  have e2 : pyIntOfChars (natChars Y) = .ok ((Y : Int)) := by
    rw [pyIntOfChars_digits _ (natChars_ne_nil Y) (natChars_all_digit Y), parseNat_natChars]
  have hplus : (Y : Int) + 1 = ((Y + 1 : Nat) : Int) := by push_cast; ring
  simp only [get_develop_version_from_release, hsplit, listIndex, List.get?, e1, e2, hplus,
    intRepr_coe_nat]

/-- C7 counterexample: nextRelease does not reject the single-component
input "5": it returns it unchanged. -/
theorem c7_counterexample :
    get_release_version "5" = Except.ok "5" := by decide

/-- C7 amended: nextDevelop and nextHotfix reject every input without two
leading numeric dot-separated components, numeric meaning a field that
int() accepts (digits with an optional sign and surrounding whitespace);
nextRelease only does so on the legacy next-suffixed path and returns
"5" unchanged. -/
theorem c7_amended (s : String) (h : hasTwoNumericParts s = false) :
    (get_develop_version_from_release s).isOk = false ∧
    (get_hotfix_version s).isOk = false := by
  unfold hasTwoNumericParts at h
  cases hp : splitOnChar '.' s.data with
  | nil =>
    constructor <;>
      simp [get_develop_version_from_release, get_hotfix_version, hp, listIndex,
        Except.isOk, Except.toBool, List.get?]
  | cons a rest =>
    cases rest with
    | nil =>
      by_cases hA : pyIntCond a = true
      · constructor <;>
          simp [get_develop_version_from_release, get_hotfix_version, hp, listIndex,
            pyIntOfChars, hA, Except.isOk, Except.toBool, List.get?]
      · constructor <;>
          simp [get_develop_version_from_release, get_hotfix_version, hp, listIndex,
            pyIntOfChars, hA, Except.isOk, Except.toBool, List.get?]
    | cons b rest2 =>
      rw [hp] at h
      by_cases hA : pyIntCond a = true
      · by_cases hB : pyIntCond b = true
        · simp [hA, hB] at h
        · constructor <;>
            simp [get_develop_version_from_release, get_hotfix_version, hp, listIndex,
              pyIntOfChars, hA, hB, Except.isOk, Except.toBool, List.get?]
      · constructor <;>
          simp [get_develop_version_from_release, get_hotfix_version, hp, listIndex,
            pyIntOfChars, hA, Except.isOk, Except.toBool, List.get?]

/-- C7 witness: the amended theorem applied at the single-component
input "5". -/
theorem c7_witness :
    (get_develop_version_from_release "5").isOk = false ∧
    (get_hotfix_version "5").isOk = false :=
  c7_amended "5" (by decide)

/-- C8: the Debian mapper replaces every underscore by a tilde and every
"rc" by "~rc", then appends "-n~codename"; with an empty tag set the
Python version "0.14rc2_249_abc1234" maps to
"0.14~rc2~249~abc1234-1~codename" for every codename. -/
theorem c8_to_debian_concrete (codename : String) :
    debian_version_from_python_version codename [] "0.14rc2_249_abc1234"
      = "0.14~rc2~249~abc1234-1~" ++ codename := by
  cases codename
  rfl

/-- C9: for every finite tag set the revision scan terminates and returns
the smallest integer n >= 1 whose candidate tag
"debian/" ++ stem ++ "-" ++ n ++ codename (stem the tilde-less debian
version) is not among the tags. -/
theorem c9_get_revision_least (version codename : String) (tags : List String) :
    1 ≤ get_revision version codename tags ∧
    debTagFor version codename (get_revision version codename tags) ∉ tags ∧
    ∀ m, 1 ≤ m → m < get_revision version codename tags →
      debTagFor version codename m ∈ tags := by
  unfold get_revision
  exact get_revision_go_spec version codename tags (tags.length + 1) 1
    (exists_free_slot version codename tags)

/-- C9 witness: the theorem instantiated at a one-element tag set whose
single tag occupies slot 1, so the scan's result occupies a free slot. -/
theorem c9_witness :
    debTagFor "1.0~1" "bionic" (get_revision "1.0~1" "bionic" ["debian/1.01-1bionic"])
      ∉ ["debian/1.01-1bionic"] :=
  (c9_get_revision_least "1.0~1" "bionic" ["debian/1.01-1bionic"]).2.1

/-- C10 counterexample: on the versioned branch name "release-" the
remainder after the first dash is present but empty, and the deriver
fails with the malformed-version error, not the missing-version one. -/
theorem c10_counterexample :
    python_version "bionic" "0.14rc2" ⟨"release-", "abc1234", 1⟩ "snapshot"
      = .error .malformedVersion ∧
    VersionError.malformedVersion ≠ VersionError.missingVersion := by
  refine ⟨by decide, by decide⟩

/-- C10 amended: on a versioned branch the deriver fails with the
missing-version error when the remainder after the first dash is absent,
and with the malformed-version error when it is present but empty. -/
theorem c10_amended (codename base_version : String) (vcs : vcs_info) (mode : String)
    (btype : branch_type)
    (hbt : BRANCH_TYPES (get_branch_type codename vcs.branch) = some btype)
    (hv : btype.versioned = true) :
    ((splitOnChar '-' (normalize_branch_name codename vcs.branch).data).get? 1 = none →
      python_version codename base_version vcs mode = .error .missingVersion) ∧
    ((splitOnChar '-' (normalize_branch_name codename vcs.branch).data).get? 1 = some [] →
      python_version codename base_version vcs mode = .error .malformedVersion) := by
  have hvp : versionPrefixMatch [] = false := rfl
  constructor
  · intro habs
    simp only [python_version, hbt, hv, checkBverstr, habs, Except.map, if_true]
  · intro hemp
    simp only [python_version, hbt, hv, checkBverstr, hemp, hvp, Except.map, if_true,
      Bool.false_eq_true, if_false]

/-- C10 witness: the amended theorem applied to the dash-less versioned
branch name "release", which yields the missing-version error. -/
theorem c10_witness :
    python_version "bionic" "0.14rc2" ⟨"release", "abc1234", 7⟩ "snapshot"
      = Except.error VersionError.missingVersion :=
  (c10_amended "bionic" "0.14rc2" ⟨"release", "abc1234", 7⟩ "snapshot"
    release_branch_type rfl rfl).1 rfl
